import Mathlib

/-!
Shallow embedding of the contact-directory core of `task.py`: validated value
types (`Phone`, `Birthday`), `Record`, `AddressBook`, and the
upcoming-birthday query, together with theorems checking the specification
claims against them.

Python exceptions are modelled by `PyErr` (`ValueError ~ valueError`,
`KeyError ~ keyError`).  Mutating methods are modelled as functions returning
the post-state together with an optional raised error; since every raise in
the source happens before any state mutation, the post-state on error is the
input state.  Strings are Lean strings over their character lists; the digit
predicates model the ASCII behaviour of the Python digit checks.
-/

set_option autoImplicit false

deriving instance DecidableEq for Except

/-- Python exception kinds raised by the core: `ValueError` (validation
failures) and `KeyError` (phone not found). -/
inductive PyErr where
  | valueError
  | keyError
deriving DecidableEq, Repr

/-- Model of Python `str.isdigit()` on ASCII strings: non-empty and all
characters are decimal digits. -/
def pyIsDigit (s : String) : Bool :=
  !s.data.isEmpty && s.data.all Char.isDigit

/-- Checker `Phone.validate` from the source: the value is a (digit-only, per
`str.isdigit`) string of length exactly 10. -/
def Phone.validate (s : String) : Bool :=
  pyIsDigit s && s.length == 10

/-- Constructor `Phone.__init__`: validates and stores the value, raising `ValueError`
on failure. -/
def mkPhone (s : String) : Except PyErr String :=
  if Phone.validate s then .ok s else .error .valueError

/-- A calendar date as the `datetime.date` triple of year, month, day. -/
structure PyDate where
  year : Nat
  month : Nat
  day : Nat
deriving DecidableEq, Repr

/-- Gregorian leap-year rule used by `datetime.date`. -/
def isLeap (y : Nat) : Bool :=
  decide ((y % 4 = 0 ∧ y % 100 ≠ 0) ∨ y % 400 = 0)

/-- Number of days in a month, as validated by the `datetime.date`
constructor. -/
def daysInMonth (y m : Nat) : Nat :=
  if m = 2 then (if isLeap y then 29 else 28)
  else if m = 4 ∨ m = 6 ∨ m = 9 ∨ m = 11 then 30
  else 31

/-- Validity check performed by the `datetime.date` constructor. -/
def PyDate.valid (d : PyDate) : Bool :=
  decide (1 ≤ d.year ∧ d.year ≤ 9999 ∧ 1 ≤ d.month ∧ d.month ≤ 12 ∧
    1 ≤ d.day ∧ d.day ≤ daysInMonth d.year d.month)

/-- Structural well-formedness of a date (month and day in range for its
own year); year bounds are checked separately where Python checks them. -/
def PyDate.wf (d : PyDate) : Bool :=
  decide (1 ≤ d.month ∧ d.month ≤ 12 ∧ 1 ≤ d.day ∧
    d.day ≤ daysInMonth d.year d.month)

/-- Python date comparison `a <= b` (lexicographic on year, month, day). -/
def PyDate.le (a b : PyDate) : Bool :=
  decide (a.year < b.year ∨ (a.year = b.year ∧ (a.month < b.month ∨
    (a.month = b.month ∧ a.day ≤ b.day))))

/-- Python date comparison `a < b` (lexicographic on year, month, day). -/
def PyDate.lt (a b : PyDate) : Bool :=
  decide (a.year < b.year ∨ (a.year = b.year ∧ (a.month < b.month ∨
    (a.month = b.month ∧ a.day < b.day))))

/-- The calendar successor of a date, used to model `timedelta` addition. -/
def PyDate.nextDay (d : PyDate) : PyDate :=
  if d.day < daysInMonth d.year d.month then ⟨d.year, d.month, d.day + 1⟩
  else if d.month < 12 then ⟨d.year, d.month + 1, 1⟩
  else ⟨d.year + 1, 1, 1⟩

/-- Addition `d + timedelta(days = n)`: iterated calendar successor. -/
def PyDate.addDays : PyDate → Nat → PyDate
  | d, 0 => d
  | d, n + 1 => (PyDate.addDays d n).nextDay

/-- Method `date.replace(year = y)`: rebuilds the date with the new year, running
the constructor validation (raising `ValueError` on e.g. Feb 29 in a
non-leap year, or a year out of range). -/
def PyDate.replaceYear (d : PyDate) (y : Nat) : Except PyErr PyDate :=
  if PyDate.valid ⟨y, d.month, d.day⟩ then .ok ⟨y, d.month, d.day⟩
  else .error .valueError

/-- Numeric value of a list of ASCII digit characters, as Python `int()`. -/
def digitsVal (cs : List Char) : Nat :=
  cs.foldl (fun a c => a * 10 + (c.toNat - 48)) 0

/-- Fuelled decimal printer: digits of `n`, most significant first.  The
fuel argument only has to exceed `n`. -/
def digitsAux : Nat → Nat → List Char
  | 0, _ => []
  | fuel + 1, n =>
    if n < 10 then [Nat.digitChar n]
    else digitsAux fuel (n / 10) ++ [Nat.digitChar (n % 10)]

/-- Decimal digits of `n`, as produced by Python `str(n)` for a `Nat`. -/
def natDigits (n : Nat) : List Char := digitsAux (n + 1) n

/-- Two-digit zero-padded decimal form (`%d` / `%m` in `strftime`). -/
def pad2 (n : Nat) : List Char :=
  if n < 10 then ['0', Nat.digitChar n] else natDigits n

/-- Four-digit zero-padded decimal form (year field of `date.isoformat`). -/
def pad4 (n : Nat) : List Char :=
  if n < 10 then ['0', '0', '0', Nat.digitChar n]
  else if n < 100 then '0' :: '0' :: natDigits n
  else if n < 1000 then '0' :: natDigits n
  else natDigits n

/-- Split a character list at every dot, like Python `str.split`. -/
def splitDots : List Char → List (List Char)
  | [] => [[]]
  | c :: cs =>
    if c = '.' then [] :: splitDots cs
    else
      match splitDots cs with
      | [] => [[c]]
      | g :: gs => (c :: g) :: gs

/-- One day/month segment of the `strptime` format `%d.%m.%Y`: one or two
digit characters whose value lies in `[1, hi]` (this is exactly the
language of the `_strptime` regexes for `%d` and `%m`). -/
def segOK (cs : List Char) (hi : Nat) : Bool :=
  cs.all Char.isDigit && 1 ≤ cs.length && cs.length ≤ 2 &&
    1 ≤ digitsVal cs && digitsVal cs ≤ hi

/-- The `%Y` segment of `strptime`: exactly four digit characters. -/
def yearOK (cs : List Char) : Bool :=
  cs.all Char.isDigit && cs.length == 4

/-- Constructor `Birthday.__init__`, i.e.
`datetime.strptime(value, "%d.%m.%Y").date()`.
The text must be day.month.year with a 1-2 digit day in 1..31, a 1-2 digit
month in 1..12 and a 4-digit year, wholly consumed, and the triple must be
a real calendar date (year at least 1); otherwise `ValueError`. -/
def parseBirthday (s : String) : Except PyErr PyDate :=
  match splitDots s.data with
  | [ds, ms, ys] =>
    if segOK ds 31 && segOK ms 12 && yearOK ys then
      let dd := digitsVal ds
      let mm := digitsVal ms
      let yy := digitsVal ys
      if 1 ≤ yy && dd ≤ daysInMonth yy mm then .ok ⟨yy, mm, dd⟩
      else .error .valueError
    else .error .valueError
  | _ => .error .valueError

/-- Format `date.strftime("%d.%m.%Y")`: zero-padded day and month, unpadded year
(glibc `%Y`). -/
def renderDMY (d : PyDate) : String :=
  ⟨pad2 d.day ++ ('.' :: (pad2 d.month ++ ('.' :: natDigits d.year)))⟩

/-- Format `date.strftime("%Y.%m.%d")` used for congratulation dates. -/
def formatYMD (d : PyDate) : String :=
  ⟨natDigits d.year ++ ('.' :: (pad2 d.month ++ ('.' :: pad2 d.day)))⟩

/-- Python `str(date)`, i.e. `date.isoformat()`: `YYYY-MM-DD` zero padded. -/
def isoDate (d : PyDate) : String :=
  ⟨pad4 d.year ++ ('-' :: (pad2 d.month ++ ('-' :: pad2 d.day)))⟩

/-- A contact record: name, ordered phone values, optional birthday.
Phone values are stored as validated strings (the `value` of each `Phone`
field object); the birthday stores the parsed calendar date. -/
structure Record where
  name : String
  phones : List String
  birthday : Option PyDate
deriving DecidableEq, Repr

/-- Constructor `Record.__init__(name)`: empty phone list, no birthday. -/
def Record.create (name : String) : Record := ⟨name, [], none⟩

/-- Method `Record.add_phone`: appends `Phone(phone)`; on validation failure the
`ValueError` propagates before any mutation. -/
def Record.add_phone (r : Record) (p : String) : Record × Option PyErr :=
  match mkPhone p with
  | .ok v => ({ r with phones := r.phones ++ [v] }, none)
  | .error e => (r, some e)

/-- The loop body of `Record.change_phone` over the phone list: replace the
first occurrence of `oldp` by a freshly validated `Phone(newp)`; `KeyError`
when no phone matches, `ValueError` from the `Phone` constructor when
`newp` is invalid (raised before the list is written). -/
def replaceFirst : List String → String → String → Except PyErr (List String)
  | [], _, _ => .error .keyError
  | p :: ps, oldp, newp =>
    if p = oldp then
      match mkPhone newp with
      | .ok v => .ok (v :: ps)
      | .error e => .error e
    else
      match replaceFirst ps oldp newp with
      | .ok ps2 => .ok (p :: ps2)
      | .error e => .error e

/-- Method `Record.change_phone`: post-state and optional raised error. -/
def Record.change_phone (r : Record) (oldp newp : String) :
    Record × Option PyErr :=
  match replaceFirst r.phones oldp newp with
  | .ok ps => ({ r with phones := ps }, none)
  | .error e => (r, some e)

/-- Method `Record.add_birthday`, i.e. `self.birthday = Birthday(birthday)`;
the
`Birthday` constructor runs (and may raise) before the assignment. -/
def Record.add_birthday (r : Record) (s : String) : Record × Option PyErr :=
  match parseBirthday s with
  | .ok d => ({ r with birthday := some d }, none)
  | .error e => (r, some e)

/-- The birthday part of `Record.__str__`: the stored `date` object
stringifies to ISO `YYYY-MM-DD`; `N/A` when absent. -/
def birthdayStr : Option PyDate → String
  | some b => isoDate b
  | none => "N/A"

/-- Method `Record.__str__`. -/
def Record.render (r : Record) : String :=
  "Record(name=" ++ r.name ++ ", phones=" ++
    String.intercalate ", " r.phones ++ ", birthday=" ++
    birthdayStr r.birthday ++ ")"

/-- Container `AddressBook`: ordered list of contacts. -/
structure AddressBook where
  contacts : List Record
deriving DecidableEq, Repr

/-- Method `AddressBook.add_record`. -/
def AddressBook.add_record (book : AddressBook) (r : Record) : AddressBook :=
  ⟨book.contacts ++ [r]⟩

/-- Python `str.lower()` on ASCII strings: lowercase every character. -/
def strLower (s : String) : String := ⟨s.data.map Char.toLower⟩

/-- The scan loop of `AddressBook.find`: first record whose lowercased name
equals the lowercased query. -/
def findRec : List Record → String → Option Record
  | [], _ => none
  | r :: rs, q => if strLower r.name = strLower q then some r else findRec rs q

/-- Method `AddressBook.find`: case-insensitive linear lookup, `none` on no
match. -/
def AddressBook.find (book : AddressBook) (q : String) : Option Record :=
  findRec book.contacts q

/-- The occurrence computation of `get_upcoming_birthdays` for one record:
the occurrence of this year via `replace(year = today.year)`, rolled to
`replace(year = today.year + 1)` when strictly before `today`. -/
def occurrence (b today : PyDate) : Except PyErr PyDate :=
  match PyDate.replaceYear b today.year with
  | .error e => .error e
  | .ok t =>
    if t.lt today then PyDate.replaceYear t (today.year + 1) else .ok t

/-- The loop of `AddressBook.get_upcoming_birthdays` over the contact list:
records with a birthday whose occurrence falls in
`[today, today + 7 days]` contribute `(name, occurrence as "%Y.%m.%d")` in
iteration order; a `ValueError` from `replace` aborts the whole query. -/
def getUpcomingBirthdays (contacts : List Record) (today : PyDate) :
    Except PyErr (List (String × String)) :=
  match contacts with
  | [] => .ok []
  | r :: rs =>
    match r.birthday with
    | none => getUpcomingBirthdays rs today
    | some b =>
      match occurrence b today with
      | .error e => .error e
      | .ok o =>
        match getUpcomingBirthdays rs today with
        | .error e => .error e
        | .ok rest =>
          if today.le o && o.le (today.addDays 7) then
            .ok ((r.name, formatYMD o) :: rest)
          else .ok rest

/-- Method `AddressBook.get_upcoming_birthdays`, with the call
`datetime.today()` of the source made an explicit parameter. -/
def AddressBook.get_upcoming_birthdays (book : AddressBook) (today : PyDate) :
    Except PyErr (List (String × String)) :=
  getUpcomingBirthdays book.contacts today

/-- A phone-mutating operation on a record (the complete set of operations
that touch the phone list). -/
inductive PhoneOp where
  | add (p : String)
  | change (o n : String)
deriving DecidableEq, Repr

/-- Post-state of applying one phone operation (errors leave the record
unchanged, as in the source). -/
def applyPhoneOp (r : Record) (op : PhoneOp) : Record :=
  match op with
  | .add p => (Record.add_phone r p).1
  | .change o n => (Record.change_phone r o n).1

/-- Record reachable from `Record(name)` by a sequence of phone
operations. -/
def runPhoneOps (name : String) (ops : List PhoneOp) : Record :=
  ops.foldl applyPhoneOp (Record.create name)

/-- Spec-side definition of the exact `DD.MM.YYYY` shape: two dot-separated
two-digit fields followed by a four-digit field, all digits. -/
def isExactDMY (s : String) : Bool :=
  match splitDots s.data with
  | [ds, ms, ys] =>
    ds.length == 2 && ms.length == 2 && ys.length == 4 &&
      (ds ++ ms ++ ys).all Char.isDigit
  | _ => false

/-- Substring occurrence test over character lists. -/
def containsSub (s pat : List Char) : Bool :=
  (List.range (s.length + 1)).any fun i => (s.drop i).take pat.length == pat

/-- Substring occurrence test on strings. -/
def strContains (s pat : String) : Bool :=
  containsSub s.data pat.data

/-- Concrete record used to examine `Record.__str__`. -/
def aliceRecord : Record := ⟨"Alice", ["1234567890"], some ⟨2000, 1, 1⟩⟩

/-- Concrete book with a February 29 birthday. -/
def bookFeb29 : List Record := [⟨"Mark", [], some ⟨2024, 2, 29⟩⟩]

/-! ### Helper lemmas -/

theorem phone_validate_iff (s : String) :
    Phone.validate s = true ↔
      (s.length = 10 ∧ ∀ c ∈ s.data, c.isDigit = true) := by
  simp only [Phone.validate, pyIsDigit, Bool.and_eq_true, Bool.not_eq_true',
    List.isEmpty_eq_true, List.all_eq_true, beq_iff_eq, String.length]
  constructor
  · rintro ⟨⟨_, hall⟩, hlen⟩
    exact ⟨hlen, hall⟩
  · rintro ⟨hlen, hall⟩
    refine ⟨⟨?_, hall⟩, hlen⟩
    rw [Bool.eq_false_iff]
    intro hnil
    rw [List.isEmpty_eq_true] at hnil
    rw [hnil] at hlen
    simp at hlen

/-! ### Claim theorems -/

/-- Claim C2: a string is accepted by the `Phone` constructor, with the
value stored exactly, precisely when it has exactly 10 characters, all of
them decimal digits; every other string is rejected with `ValueError`. -/
theorem phone_create_spec (s : String) :
    (Phone.validate s = true ↔ (s.length = 10 ∧ ∀ c ∈ s.data, c.isDigit = true))
    ∧ ((s.length = 10 ∧ ∀ c ∈ s.data, c.isDigit = true) →
        mkPhone s = Except.ok s)
    ∧ (¬(s.length = 10 ∧ ∀ c ∈ s.data, c.isDigit = true) →
        mkPhone s = Except.error PyErr.valueError) := by
  refine ⟨phone_validate_iff s, ?_, ?_⟩
  · intro h
    rw [mkPhone, if_pos ((phone_validate_iff s).mpr h)]
  · intro h
    rw [mkPhone, if_neg]
    intro hv
    exact h ((phone_validate_iff s).mp hv)

/-- Witness for C2 at the concrete inputs `"1234567890"` and `"12345"`. -/
theorem phone_create_spec_witness :
    mkPhone "1234567890" = Except.ok "1234567890" ∧
      mkPhone "12345" = Except.error PyErr.valueError := by
  constructor
  · exact (phone_create_spec "1234567890").2.1 ⟨by decide, by decide⟩
  · exact (phone_create_spec "12345").2.2 (by intro h; exact absurd h.1 (by decide))

/-- Claim C8: `add_phone` appends exactly the validated phone on success,
and on validation failure raises `ValueError` leaving the phone list
unchanged. -/
theorem add_phone_spec (r : Record) (p : String) :
    (Phone.validate p = true →
      Record.add_phone r p = ({ r with phones := r.phones ++ [p] }, none))
    ∧ (Phone.validate p = false →
      Record.add_phone r p = (r, some PyErr.valueError)) := by
  constructor
  · intro h
    rw [Record.add_phone, mkPhone, if_pos h]
  · intro h
    rw [Record.add_phone, mkPhone, if_neg (by simp [h])]

/-- Witness for C8: the spec scenario.  On a fresh record for Alice,
`add_phone "1234567890"` succeeds; a subsequent `add_phone "12345"` fails
with `ValueError` and the phone list still has exactly one entry. -/
theorem add_phone_spec_witness :
    (Record.add_phone (Record.create "Alice") "1234567890" =
      (⟨"Alice", ["1234567890"], none⟩, none))
    ∧ (Record.add_phone (⟨"Alice", ["1234567890"], none⟩ : Record) "12345" =
      (⟨"Alice", ["1234567890"], none⟩, some PyErr.valueError))
    ∧ ((⟨"Alice", ["1234567890"], none⟩ : Record).phones.length = 1) := by
  refine ⟨?_, ?_, by decide⟩
  · exact (add_phone_spec (Record.create "Alice") "1234567890").1 (by decide)
  · exact (add_phone_spec ⟨"Alice", ["1234567890"], none⟩ "12345").2 (by decide)

/-- Claim C9: `add_birthday` is atomic on failure — when the birthday text
does not parse, the raise happens before the assignment, so the whole
record (in particular its previous birthday field) is unchanged. -/
theorem add_birthday_atomic (r : Record) (s : String) (e : PyErr)
    (h : parseBirthday s = Except.error e) :
    Record.add_birthday r s = (r, some e) := by
  rw [Record.add_birthday, h]

/-- Witness for C9 at the invalid date `"31.02.2024"` against a record
whose birthday is already set. -/
theorem add_birthday_atomic_witness :
    Record.add_birthday (⟨"Bob", [], some ⟨1990, 5, 5⟩⟩ : Record) "31.02.2024" =
      (⟨"Bob", [], some ⟨1990, 5, 5⟩⟩, some PyErr.valueError) :=
  add_birthday_atomic ⟨"Bob", [], some ⟨1990, 5, 5⟩⟩ "31.02.2024"
    PyErr.valueError (by decide)

theorem mkPhone_ok_iff (s v : String) :
    mkPhone s = Except.ok v ↔ (Phone.validate s = true ∧ v = s) := by
  rw [mkPhone]
  by_cases h : Phone.validate s = true
  · rw [if_pos h]
    constructor
    · intro he
      exact ⟨h, Except.ok.inj he.symm⟩
    · rintro ⟨_, rfl⟩
      rfl
  · rw [if_neg h]
    constructor
    · intro he
      cases he
    · rintro ⟨hv, _⟩
      exact absurd hv h

theorem replaceFirst_not_mem (ps : List String) (o n : String) (h : o ∉ ps) :
    replaceFirst ps o n = Except.error PyErr.keyError := by
  induction ps with
  | nil => rfl
  | cons p ps ih =>
    rw [List.mem_cons, not_or] at h
    have hne : ¬ p = o := fun hp => h.1 hp.symm
    simp only [replaceFirst, if_neg hne, ih h.2]

theorem replaceFirst_mem_invalid (ps : List String) (o n : String)
    (hmem : o ∈ ps) (hv : Phone.validate n = false) :
    replaceFirst ps o n = Except.error PyErr.valueError := by
  induction ps with
  | nil => cases hmem
  | cons p ps ih =>
    by_cases hp : p = o
    · simp only [replaceFirst, if_pos hp, mkPhone, hv, Bool.false_eq_true,
        if_false]
    · rcases List.mem_cons.mp hmem with h1 | h2
      · exact absurd h1.symm hp
      · simp only [replaceFirst, if_neg hp, ih h2]

theorem replaceFirst_mem_valid (ps : List String) (o n : String)
    (hmem : o ∈ ps) (hv : Phone.validate n = true) :
    ∃ pre post, ps = pre ++ o :: post ∧ o ∉ pre ∧
      replaceFirst ps o n = Except.ok (pre ++ n :: post) := by
  induction ps with
  | nil => cases hmem
  | cons p ps ih =>
    by_cases hp : p = o
    · refine ⟨[], ps, by simp [hp], by simp, ?_⟩
      simp only [replaceFirst, if_pos hp, mkPhone, hv, if_true,
        List.nil_append]
    · have hmem2 : o ∈ ps := by
        rcases List.mem_cons.mp hmem with h1 | h2
        · exact absurd h1.symm hp
        · exact h2
      obtain ⟨pre, post, hsplit, hnot, heq⟩ := ih hmem2
      refine ⟨p :: pre, post, by simp [hsplit], ?_, ?_⟩
      · rw [List.mem_cons, not_or]
        exact ⟨fun h1 => hp h1.symm, hnot⟩
      · simp only [replaceFirst, if_neg hp, heq, List.cons_append]

theorem replaceFirst_ok_valid (ps : List String) (o n : String)
    (ps2 : List String) (h : replaceFirst ps o n = Except.ok ps2)
    (hall : ∀ p ∈ ps, Phone.validate p = true) :
    ∀ p ∈ ps2, Phone.validate p = true := by
  induction ps generalizing ps2 with
  | nil => cases h
  | cons p ps ih =>
    by_cases hp : p = o
    · simp only [replaceFirst, if_pos hp] at h
      cases hmk : mkPhone n with
      | ok v =>
        rw [hmk] at h
        cases h
        obtain ⟨hvn, rfl⟩ := (mkPhone_ok_iff n v).mp hmk
        intro q hq
        rcases List.mem_cons.mp hq with rfl | hq2
        · exact hvn
        · exact hall q (List.mem_cons_of_mem _ hq2)
      | error e => rw [hmk] at h; cases h
    · simp only [replaceFirst, if_neg hp] at h
      cases heq : replaceFirst ps o n with
      | ok ps3 =>
        rw [heq] at h
        cases h
        intro q hq
        rcases List.mem_cons.mp hq with rfl | hq2
        · exact hall q (List.mem_cons_self _ _)
        · exact ih ps3 heq (fun x hx => hall x (List.mem_cons_of_mem _ hx)) q hq2
      | error e => rw [heq] at h; cases h

theorem applyPhoneOp_preserves (r : Record) (op : PhoneOp)
    (hall : ∀ p ∈ r.phones, Phone.validate p = true) :
    ∀ p ∈ (applyPhoneOp r op).phones, Phone.validate p = true := by
  cases op with
  | add q =>
    simp only [applyPhoneOp, Record.add_phone]
    cases hmk : mkPhone q with
    | ok v =>
      obtain ⟨hvq, rfl⟩ := (mkPhone_ok_iff q v).mp hmk
      intro p hp
      rcases List.mem_append.mp hp with h1 | h2
      · exact hall p h1
      · rw [List.mem_singleton.mp h2]
        exact hvq
    | error e => exact hall
  | change o n =>
    simp only [applyPhoneOp, Record.change_phone]
    cases heq : replaceFirst r.phones o n with
    | ok ps2 => exact replaceFirst_ok_valid r.phones o n ps2 heq hall
    | error e => exact hall

/-- Claim C4: `change_phone` replaces the first phone equal to `old_text`
with a freshly validated phone from `new_text`; it raises `KeyError` when
no phone matches and `ValueError` when a match exists but `new_text` is
invalid, and in either failure case the record (in particular its phone
sequence) is unchanged. -/
theorem change_phone_spec (r : Record) (oldp newp : String) :
    (oldp ∉ r.phones →
      Record.change_phone r oldp newp = (r, some PyErr.keyError))
    ∧ (oldp ∈ r.phones → Phone.validate newp = false →
      Record.change_phone r oldp newp = (r, some PyErr.valueError))
    ∧ (oldp ∈ r.phones → Phone.validate newp = true →
      ∃ pre post, r.phones = pre ++ oldp :: post ∧ oldp ∉ pre ∧
        Record.change_phone r oldp newp =
          ({ r with phones := pre ++ newp :: post }, none)) := by
  refine ⟨?_, ?_, ?_⟩
  · intro h
    rw [Record.change_phone, replaceFirst_not_mem r.phones oldp newp h]
  · intro h hv
    rw [Record.change_phone, replaceFirst_mem_invalid r.phones oldp newp h hv]
  · intro h hv
    obtain ⟨pre, post, h1, h2, h3⟩ :=
      replaceFirst_mem_valid r.phones oldp newp h hv
    exact ⟨pre, post, h1, h2, by rw [Record.change_phone, h3]⟩

/-- Witness for C4: both failure modes and the success mode at concrete
records. -/
theorem change_phone_spec_witness :
    (Record.change_phone ⟨"A", ["1234567890"], none⟩ "0000000000" "0987654321" =
      (⟨"A", ["1234567890"], none⟩, some PyErr.keyError))
    ∧ (Record.change_phone ⟨"A", ["1234567890"], none⟩ "1234567890" "098" =
      (⟨"A", ["1234567890"], none⟩, some PyErr.valueError)) := by
  constructor
  · exact (change_phone_spec ⟨"A", ["1234567890"], none⟩ "0000000000"
      "0987654321").1 (by decide)
  · exact (change_phone_spec ⟨"A", ["1234567890"], none⟩ "1234567890"
      "098").2.1 (by decide) (by decide)

/-- Claim C10: the 10-digit invariant is preserved by every phone
operation — every record reachable from a fresh record by any sequence of
`add_phone` and `change_phone` calls (successful or failing) stores only
phone values that pass `Phone.validate`. -/
theorem phones_invariant (name : String) (ops : List PhoneOp) :
    ∀ p ∈ (runPhoneOps name ops).phones, Phone.validate p = true := by
  suffices h : ∀ (l : List PhoneOp) (r : Record),
      (∀ p ∈ r.phones, Phone.validate p = true) →
      ∀ p ∈ (l.foldl applyPhoneOp r).phones, Phone.validate p = true by
    exact h ops (Record.create name) (by simp [Record.create])
  intro l
  induction l with
  | nil => intro r hr; simpa using hr
  | cons op l ih =>
    intro r hr
    exact ih (applyPhoneOp r op) (applyPhoneOp_preserves r op hr)

/-- Witness for C10 on a concrete operation sequence including a failing
add and a change. -/
theorem phones_invariant_witness :
    Phone.validate "0987654321" = true :=
  phones_invariant "A"
    [PhoneOp.add "1234567890", PhoneOp.add "12345",
     PhoneOp.change "1234567890" "0987654321"]
    "0987654321" (by decide)

theorem findRec_congr (l : List Record) (q q2 : String)
    (h : strLower q = strLower q2) : findRec l q = findRec l q2 := by
  induction l with
  | nil => rfl
  | cons r rs ih => simp only [findRec, h, ih]

theorem findRec_some (l : List Record) (q : String) (r : Record)
    (h : findRec l q = some r) :
    strLower r.name = strLower q ∧ ∃ pre post, l = pre ++ r :: post ∧
      ∀ x ∈ pre, strLower x.name ≠ strLower q := by
  induction l with
  | nil => cases h
  | cons a rs ih =>
    by_cases ha : strLower a.name = strLower q
    · rw [findRec, if_pos ha] at h
      cases h
      exact ⟨ha, [], rs, rfl, by simp⟩
    · rw [findRec, if_neg ha] at h
      obtain ⟨h1, pre, post, h2, h3⟩ := ih h
      refine ⟨h1, a :: pre, post, by rw [h2]; rfl, ?_⟩
      intro x hx
      rcases List.mem_cons.mp hx with rfl | hx2
      · exact ha
      · exact h3 x hx2

theorem findRec_none (l : List Record) (q : String) :
    findRec l q = none ↔ ∀ x ∈ l, strLower x.name ≠ strLower q := by
  induction l with
  | nil => simp [findRec]
  | cons a rs ih =>
    by_cases ha : strLower a.name = strLower q
    · rw [findRec, if_pos ha]
      constructor
      · intro h
        cases h
      · intro h
        exact absurd ha (h a (List.mem_cons_self a rs))
    · rw [findRec, if_neg ha, ih]
      constructor
      · intro h x hx
        rcases List.mem_cons.mp hx with rfl | hx2
        · exact ha
        · exact h x hx2
      · intro h x hx
        exact h x (List.mem_cons_of_mem _ hx)

/-- Claim C6: `find` returns the first record whose name equals the query
under case-insensitive comparison, absence (`none`) when no record
matches, and gives the same answer for queries that agree up to case. -/
theorem find_spec (book : AddressBook) (q : String) :
    (∀ r, AddressBook.find book q = some r →
      strLower r.name = strLower q ∧
      ∃ pre post, book.contacts = pre ++ r :: post ∧
        ∀ x ∈ pre, strLower x.name ≠ strLower q)
    ∧ (AddressBook.find book q = none ↔
      ∀ x ∈ book.contacts, strLower x.name ≠ strLower q)
    ∧ (∀ q2, strLower q = strLower q2 →
      AddressBook.find book q = AddressBook.find book q2) := by
  refine ⟨?_, ?_, ?_⟩
  · intro r h
    exact findRec_some book.contacts q r h
  · exact findRec_none book.contacts q
  · intro q2 h
    exact findRec_congr book.contacts q q2 h

/-- Witness for C6: `find "Bob"` and `find "bob"` agree on a directory
containing a record named Bob, and return that record. -/
theorem find_spec_witness :
    AddressBook.find ⟨[⟨"Bob", [], none⟩]⟩ "Bob" =
      AddressBook.find ⟨[⟨"Bob", [], none⟩]⟩ "bob" ∧
    AddressBook.find ⟨[⟨"Bob", [], none⟩]⟩ "Bob" = some ⟨"Bob", [], none⟩ := by
  constructor
  · exact (find_spec ⟨[⟨"Bob", [], none⟩]⟩ "Bob").2.2 "bob" (by decide)
  · decide

theorem daysInMonth_pos (y m : Nat) : 1 ≤ daysInMonth y m := by
  unfold daysInMonth
  split
  · split <;> omega
  · split <;> omega

theorem daysInMonth_le_31 (y m : Nat) : daysInMonth y m ≤ 31 := by
  unfold daysInMonth
  split
  · split <;> omega
  · split <;> omega

theorem daysInMonth_not_feb (y y2 m : Nat) (h : m ≠ 2) :
    daysInMonth y m = daysInMonth y2 m := by
  unfold daysInMonth
  rw [if_neg h, if_neg h]

theorem dim_feb_le (y : Nat) : daysInMonth y 2 ≤ 29 := by
  unfold daysInMonth
  rw [if_pos rfl]
  split <;> omega

theorem dim_feb_ge (y : Nat) : 28 ≤ daysInMonth y 2 := by
  unfold daysInMonth
  rw [if_pos rfl]
  split <;> omega

theorem wf_iff (d : PyDate) :
    d.wf = true ↔ (1 ≤ d.month ∧ d.month ≤ 12 ∧ 1 ≤ d.day ∧
      d.day ≤ daysInMonth d.year d.month) := by
  simp [PyDate.wf]

theorem le_refl_date (d : PyDate) : d.le d = true := by
  simp [PyDate.le]

theorem le_of_lt_date (a b : PyDate) (h : a.lt b = true) : a.le b = true := by
  simp only [PyDate.lt, decide_eq_true_eq] at h
  simp only [PyDate.le, decide_eq_true_eq]
  omega

theorem le_trans_date (a b c : PyDate) (h1 : a.le b = true)
    (h2 : b.le c = true) : a.le c = true := by
  simp only [PyDate.le, decide_eq_true_eq] at h1 h2 ⊢
  omega

theorem lt_not_le (a b : PyDate) (h : a.lt b = true) : b.le a = false := by
  simp only [PyDate.lt, decide_eq_true_eq] at h
  simp only [PyDate.le, decide_eq_false_iff_not, decide_eq_true_eq]
  omega

theorem nextDay_lt (d : PyDate) : d.lt d.nextDay = true := by
  unfold PyDate.nextDay
  split
  · simp only [PyDate.lt, decide_eq_true_eq, eq_self_iff_true, true_and]
    omega
  · split
    · simp only [PyDate.lt, decide_eq_true_eq, eq_self_iff_true, true_and]
      omega
    · simp only [PyDate.lt, decide_eq_true_eq, eq_self_iff_true, true_and]
      omega

theorem nextDay_wf (d : PyDate) (h : d.wf = true) : d.nextDay.wf = true := by
  rw [wf_iff] at h ⊢
  unfold PyDate.nextDay
  split
  · next hlt => dsimp only; omega
  · split
    · next hm =>
      dsimp only
      refine ⟨by omega, by omega, by omega, daysInMonth_pos _ _⟩
    · next hm =>
      dsimp only
      refine ⟨by omega, by omega, by omega, daysInMonth_pos _ _⟩

theorem addDays_le_wf (d : PyDate) (h : d.wf = true) (n : Nat) :
    d.le (d.addDays n) = true ∧ (d.addDays n).wf = true := by
  induction n with
  | zero => exact ⟨le_refl_date d, h⟩
  | succ n ih =>
    refine ⟨?_, nextDay_wf _ ih.2⟩
    exact le_trans_date _ _ _ ih.1 (le_of_lt_date _ _ (nextDay_lt (d.addDays n)))

theorem addDays8_not_le (d : PyDate) :
    (d.addDays 8).le (d.addDays 7) = false :=
  lt_not_le (d.addDays 7) (d.addDays 8) (nextDay_lt (d.addDays 7))

/-- Claim C1: for a record with a birthday, the occurrence date (this
month/day of the birthday in the current year, rolled to next year when
strictly before today) appears
in the upcoming-birthday result exactly when it lies in
`[today, today + 7 days]`; in particular an occurrence exactly today is
included, one at today + 8 days is excluded, and an occurrence already
past is evaluated against its next-year replacement. -/
theorem upcoming_window_iff (r : Record) (b today o : PyDate)
    (hb : r.birthday = some b) (hwf : today.wf = true)
    (ho : occurrence b today = Except.ok o) :
    ∃ l, getUpcomingBirthdays [r] today = Except.ok l
      ∧ ((r.name, formatYMD o) ∈ l ↔
          (today.le o = true ∧ o.le (today.addDays 7) = true))
      ∧ (o = today → (r.name, formatYMD o) ∈ l)
      ∧ (o = today.addDays 8 → (r.name, formatYMD o) ∉ l)
      ∧ (∀ t, PyDate.replaceYear b today.year = Except.ok t →
          t.lt today = true →
          occurrence b today = PyDate.replaceYear t (today.year + 1)) := by
  refine ⟨if today.le o && o.le (today.addDays 7) then
      [(r.name, formatYMD o)] else [], ?_, ?_, ?_, ?_, ?_⟩
  · simp only [getUpcomingBirthdays, hb, ho]
    by_cases hc : (today.le o && o.le (today.addDays 7)) = true
    · rw [if_pos hc, if_pos hc]
    · rw [if_neg hc, if_neg hc]
  · constructor
    · intro hmem
      by_cases hc : (today.le o && o.le (today.addDays 7)) = true
      · exact Bool.and_eq_true_iff.mp hc
      · rw [if_neg hc] at hmem
        cases hmem
    · intro hc
      rw [if_pos (Bool.and_eq_true_iff.mpr hc)]
      exact List.mem_singleton.mpr rfl
  · intro heq
    rw [heq]
    rw [if_pos (Bool.and_eq_true_iff.mpr
      ⟨le_refl_date today, (addDays_le_wf today hwf 7).1⟩)]
    exact List.mem_singleton.mpr rfl
  · intro heq
    rw [heq]
    have hf : ((today.addDays 8).le (today.addDays 7)) = false :=
      addDays8_not_le today
    rw [if_neg (by rw [hf, Bool.and_false]; exact Bool.false_ne_true)]
    exact List.not_mem_nil _
  · intro t ht hlt
    simp only [occurrence, ht, hlt, if_true]

/-- Witness for C1: the spec scenario — birthday 01.01.1990, today
2024-12-28; the occurrence rolls to 2025-01-01 and is included. -/
theorem upcoming_window_iff_witness :
    ∃ l, getUpcomingBirthdays [⟨"Ann", [], some ⟨1990, 1, 1⟩⟩]
        ⟨2024, 12, 28⟩ = Except.ok l
      ∧ ("Ann", formatYMD ⟨2025, 1, 1⟩) ∈ l := by
  obtain ⟨l, h1, h2, -, -, -⟩ :=
    upcoming_window_iff ⟨"Ann", [], some ⟨1990, 1, 1⟩⟩ ⟨1990, 1, 1⟩
      ⟨2024, 12, 28⟩ ⟨2025, 1, 1⟩ rfl (by decide) (by decide)
  exact ⟨l, h1, h2.mpr ⟨by decide, by decide⟩⟩

theorem day_le_dim_any (b : PyDate) (y : Nat)
    (hwf : 1 ≤ b.month ∧ b.month ≤ 12 ∧ 1 ≤ b.day ∧
      b.day ≤ daysInMonth b.year b.month)
    (hfeb : b.month = 2 → b.day ≠ 29) :
    b.day ≤ daysInMonth y b.month := by
  by_cases hm : b.month = 2
  · have h1 : b.day ≤ daysInMonth b.year 2 := by
      rw [← hm]
      exact hwf.2.2.2
    have h2 : daysInMonth b.year 2 ≤ 29 := dim_feb_le b.year
    have h3 : 28 ≤ daysInMonth y 2 := dim_feb_ge y
    have h4 : b.day ≠ 29 := hfeb hm
    rw [hm]
    omega
  · rw [daysInMonth_not_feb y b.year b.month hm]
    exact hwf.2.2.2

theorem occurrence_ok (b today : PyDate)
    (hwf : b.wf = true) (hfeb : b.month = 2 → b.day ≠ 29)
    (hy1 : 1 ≤ today.year) (hy2 : today.year + 1 ≤ 9999) :
    ∃ o, occurrence b today = Except.ok o := by
  rw [wf_iff] at hwf
  have hv1 : PyDate.valid ⟨today.year, b.month, b.day⟩ = true := by
    simp only [PyDate.valid, decide_eq_true_eq]
    exact ⟨hy1, by omega, hwf.1, hwf.2.1, hwf.2.2.1,
      day_le_dim_any b today.year hwf hfeb⟩
  have ht : PyDate.replaceYear b today.year =
      Except.ok ⟨today.year, b.month, b.day⟩ := by
    rw [PyDate.replaceYear, if_pos hv1]
  simp only [occurrence, ht]
  by_cases hlt : (⟨today.year, b.month, b.day⟩ : PyDate).lt today = true
  · rw [if_pos hlt]
    have hv2 : PyDate.valid ⟨today.year + 1, b.month, b.day⟩ = true := by
      simp only [PyDate.valid, decide_eq_true_eq]
      exact ⟨by omega, hy2, hwf.1, hwf.2.1, hwf.2.2.1,
        day_le_dim_any b (today.year + 1) hwf hfeb⟩
    exact ⟨_, by rw [PyDate.replaceYear, if_pos hv2]⟩
  · rw [if_neg hlt]
    exact ⟨_, rfl⟩

/-- Counterexample to C5 as stated: a February 29 birthday makes step 1
(`replace(year = today.year)`) raise `ValueError` in a non-leap year, so
`get_upcoming_birthdays` does not return a result sequence. -/
theorem upcoming_feb29_raises :
    getUpcomingBirthdays bookFeb29 ⟨2025, 3, 1⟩ =
      Except.error PyErr.valueError := by
  decide

/-- Claim C5 as amended: the query is total whenever no stored birthday
falls on February 29 (and the years involved stay in the `date` range) —
for such books, step 1 always succeeds and the whole query returns a
result list. -/
theorem upcoming_total_no_feb29 (contacts : List Record) (today : PyDate)
    (hc : ∀ r ∈ contacts, ∀ b, r.birthday = some b →
      b.wf = true ∧ (b.month = 2 → b.day ≠ 29))
    (hy1 : 1 ≤ today.year) (hy2 : today.year + 1 ≤ 9999) :
    ∃ l, getUpcomingBirthdays contacts today = Except.ok l := by
  induction contacts with
  | nil => exact ⟨[], rfl⟩
  | cons r rs ih =>
    obtain ⟨l2, hl2⟩ := ih (fun x hx => hc x (List.mem_cons_of_mem _ hx))
    cases hb : r.birthday with
    | none =>
      refine ⟨l2, ?_⟩
      simp only [getUpcomingBirthdays, hb, hl2]
    | some b =>
      obtain ⟨hwf, hfeb⟩ := hc r (List.mem_cons_self _ _) b hb
      obtain ⟨o, ho⟩ := occurrence_ok b today hwf hfeb hy1 hy2
      refine ⟨if today.le o && o.le (today.addDays 7) then
        (r.name, formatYMD o) :: l2 else l2, ?_⟩
      simp only [getUpcomingBirthdays, hb, ho, hl2]
      split <;> rfl

/-- Witness for the amended C5 on a concrete two-record book. -/
theorem upcoming_total_no_feb29_witness :
    ∃ l, getUpcomingBirthdays
      [⟨"Ann", [], some ⟨1990, 5, 5⟩⟩, ⟨"Joe", [], none⟩]
      ⟨2024, 6, 15⟩ = Except.ok l := by
  refine upcoming_total_no_feb29 _ _ ?_ (by decide) (by decide)
  intro r hr b hb
  rcases List.mem_cons.mp hr with rfl | hr2
  · cases hb
    exact ⟨by decide, by decide⟩
  · rcases List.mem_cons.mp hr2 with rfl | hr3
    · cases hb
    · cases hr3

theorem digitChar_isDigit (k : Nat) (h : k < 10) :
    (Nat.digitChar k).isDigit = true := by
  interval_cases k <;> decide

theorem digitChar_toNat (k : Nat) (h : k < 10) :
    (Nat.digitChar k).toNat = 48 + k := by
  interval_cases k <;> decide

theorem digitChar_ne_dot (k : Nat) (h : k < 10) : Nat.digitChar k ≠ '.' := by
  interval_cases k <;> decide

theorem digitsVal_append (a : List Char) (c : Char) :
    digitsVal (a ++ [c]) = digitsVal a * 10 + (c.toNat - 48) := by
  simp [digitsVal, List.foldl_append]

theorem digitsAux_spec (fuel n : Nat) (h : n < fuel) :
    (∀ c ∈ digitsAux fuel n, c.isDigit = true ∧ c ≠ '.') ∧
      digitsVal (digitsAux fuel n) = n := by
  induction fuel generalizing n with
  | zero => omega
  | succ f ih =>
    by_cases h10 : n < 10
    · simp only [digitsAux, if_pos h10]
      constructor
      · intro c hc
        rw [List.mem_singleton.mp hc]
        exact ⟨digitChar_isDigit n h10, digitChar_ne_dot n h10⟩
      · simp only [digitsVal, List.foldl_cons, List.foldl_nil,
          digitChar_toNat n h10]
        omega
    · have hdiv : n / 10 < f := by omega
      obtain ⟨ihmem, ihval⟩ := ih (n / 10) hdiv
      have hmod : n % 10 < 10 := Nat.mod_lt _ (by omega)
      simp only [digitsAux, if_neg h10]
      constructor
      · intro c hc
        rcases List.mem_append.mp hc with h1 | h2
        · exact ihmem c h1
        · rw [List.mem_singleton.mp h2]
          exact ⟨digitChar_isDigit _ hmod, digitChar_ne_dot _ hmod⟩
      · rw [digitsVal_append, ihval, digitChar_toNat _ hmod]
        omega

theorem digitsAux_len1 (fuel n : Nat) (hf : 0 < fuel) (h : n < 10) :
    (digitsAux fuel n).length = 1 := by
  cases fuel with
  | zero => omega
  | succ f => simp [digitsAux, if_pos h]

theorem digitsAux_len2 (fuel n : Nat) (hf : 1 < fuel) (h1 : 10 ≤ n)
    (h2 : n < 100) : (digitsAux fuel n).length = 2 := by
  cases fuel with
  | zero => omega
  | succ f =>
    simp only [digitsAux, if_neg (by omega : ¬ n < 10)]
    rw [List.length_append, digitsAux_len1 f (n / 10) (by omega) (by omega)]
    rfl

theorem digitsAux_len3 (fuel n : Nat) (hf : 2 < fuel) (h1 : 100 ≤ n)
    (h2 : n < 1000) : (digitsAux fuel n).length = 3 := by
  cases fuel with
  | zero => omega
  | succ f =>
    simp only [digitsAux, if_neg (by omega : ¬ n < 10)]
    rw [List.length_append,
      digitsAux_len2 f (n / 10) (by omega) (by omega) (by omega)]
    rfl

theorem digitsAux_len4 (fuel n : Nat) (hf : 3 < fuel) (h1 : 1000 ≤ n)
    (h2 : n < 10000) : (digitsAux fuel n).length = 4 := by
  cases fuel with
  | zero => omega
  | succ f =>
    simp only [digitsAux, if_neg (by omega : ¬ n < 10)]
    rw [List.length_append,
      digitsAux_len3 f (n / 10) (by omega) (by omega) (by omega)]
    rfl

theorem pad2_spec (n : Nat) (h : n ≤ 99) :
    (∀ c ∈ pad2 n, c.isDigit = true ∧ c ≠ '.') ∧
      digitsVal (pad2 n) = n ∧ (pad2 n).length = 2 := by
  by_cases h10 : n < 10
  · simp only [pad2, if_pos h10]
    refine ⟨?_, ?_, rfl⟩
    · intro c hc
      rcases List.mem_cons.mp hc with rfl | hc2
      · exact ⟨by decide, by decide⟩
      · rw [List.mem_singleton.mp hc2]
        exact ⟨digitChar_isDigit n h10, digitChar_ne_dot n h10⟩
    · have h0 : ('0' : Char).toNat = 48 := rfl
      simp only [digitsVal, List.foldl_cons, List.foldl_nil, h0,
        digitChar_toNat n h10]
      omega
  · simp only [pad2, if_neg h10, natDigits]
    have hs := digitsAux_spec (n + 1) n (by omega)
    exact ⟨hs.1, hs.2,
      digitsAux_len2 (n + 1) n (by omega) (by omega) (by omega)⟩

theorem natDigits_year (n : Nat) (h1 : 1000 ≤ n) (h2 : n ≤ 9999) :
    (∀ c ∈ natDigits n, c.isDigit = true ∧ c ≠ '.') ∧
      digitsVal (natDigits n) = n ∧ (natDigits n).length = 4 := by
  have hs := digitsAux_spec (n + 1) n (by omega)
  exact ⟨hs.1, hs.2,
    digitsAux_len4 (n + 1) n (by omega) (by omega) (by omega)⟩

theorem splitDots_no_dot (a : List Char) (h : '.' ∉ a) : splitDots a = [a] := by
  induction a with
  | nil => rfl
  | cons c cs ih =>
    rw [List.mem_cons, not_or] at h
    have hc : ¬ c = '.' := fun hh => h.1 hh.symm
    simp only [splitDots, if_neg hc, ih h.2]

theorem splitDots_append (a r : List Char) (h : '.' ∉ a) :
    splitDots (a ++ '.' :: r) = a :: splitDots r := by
  induction a with
  | nil => simp [splitDots]
  | cons c cs ih =>
    rw [List.mem_cons, not_or] at h
    have hc : ¬ c = '.' := fun hh => h.1 hh.symm
    simp only [List.cons_append, splitDots, if_neg hc, List.append_eq,
      ih h.2]

theorem segOK_intro (cs : List Char) (hi n : Nat)
    (hall : ∀ c ∈ cs, c.isDigit = true) (hlen : cs.length = 2)
    (hval : digitsVal cs = n) (h1 : 1 ≤ n) (h2 : n ≤ hi) :
    segOK cs hi = true := by
  simp only [segOK, Bool.and_eq_true, List.all_eq_true, decide_eq_true_eq]
  exact ⟨⟨⟨⟨hall, by omega⟩, by omega⟩, by omega⟩, by omega⟩

theorem yearOK_intro (cs : List Char) (hall : ∀ c ∈ cs, c.isDigit = true)
    (hlen : cs.length = 4) : yearOK cs = true := by
  simp only [yearOK, Bool.and_eq_true, List.all_eq_true, beq_iff_eq]
  exact ⟨hall, hlen⟩

/-- Counterexample to C3 as stated: `"1.1.2024"` is not in exact
`DD.MM.YYYY` form, yet `Birthday` construction succeeds on it (Python
`strptime` accepts unpadded day and month fields). -/
theorem birthday_format_counterexample :
    isExactDMY "1.1.2024" = false ∧
      parseBirthday "1.1.2024" = Except.ok ⟨2024, 1, 1⟩ := by
  constructor
  · decide
  · decide

/-- Claim C3 as amended: every real calendar date with a four-digit year
(1000-9999) round-trips through `strftime("%d.%m.%Y")` and `Birthday`
construction, and a string in the format shape that is not a real
calendar date (31.02.2024) is rejected with `ValueError`.  (Construction
additionally accepts unpadded day/month fields, per the counterexample.) -/
theorem birthday_roundtrip (d : PyDate) (hv : d.valid = true)
    (hy : 1000 ≤ d.year) :
    parseBirthday (renderDMY d) = Except.ok d ∧
      parseBirthday "31.02.2024" = Except.error PyErr.valueError := by
  refine ⟨?_, by decide⟩
  simp only [PyDate.valid, decide_eq_true_eq] at hv
  obtain ⟨hy1, hy2, hm1, hm2, hd1, hd2⟩ := hv
  have hd31 : d.day ≤ 31 := le_trans hd2 (daysInMonth_le_31 d.year d.month)
  have hday := pad2_spec d.day (by omega)
  have hmon := pad2_spec d.month (by omega)
  have hyear := natDigits_year d.year hy hy2
  have hnd : '.' ∉ pad2 d.day := fun hmem => (hday.1 '.' hmem).2 rfl
  have hnm : '.' ∉ pad2 d.month := fun hmem => (hmon.1 '.' hmem).2 rfl
  have hny : '.' ∉ natDigits d.year := fun hmem => (hyear.1 '.' hmem).2 rfl
  have hsplit : splitDots (renderDMY d).data =
      [pad2 d.day, pad2 d.month, natDigits d.year] := by
    show splitDots
      (pad2 d.day ++ ('.' :: (pad2 d.month ++ ('.' :: natDigits d.year)))) = _
    rw [splitDots_append _ _ hnd, splitDots_append _ _ hnm,
      splitDots_no_dot _ hny]
  have hseg1 : segOK (pad2 d.day) 31 = true :=
    segOK_intro _ _ d.day (fun c hc => (hday.1 c hc).1) hday.2.2
      hday.2.1 hd1 hd31
  have hseg2 : segOK (pad2 d.month) 12 = true :=
    segOK_intro _ _ d.month (fun c hc => (hmon.1 c hc).1) hmon.2.2
      hmon.2.1 hm1 hm2
  have hyok : yearOK (natDigits d.year) = true :=
    yearOK_intro _ (fun c hc => (hyear.1 c hc).1) hyear.2.2
  simp only [parseBirthday, hsplit, hseg1, hseg2, hyok, Bool.and_self,
    Bool.true_and, eq_self_iff_true, if_true, hday.2.1, hmon.2.1, hyear.2.1]
  rw [if_pos (Bool.and_eq_true_iff.mpr
    ⟨decide_eq_true (by omega : 1 ≤ d.year), decide_eq_true hd2⟩)]

/-- Witness for the amended C3 at the leap date 29.02.2024. -/
theorem birthday_roundtrip_witness :
    parseBirthday (renderDMY ⟨2024, 2, 29⟩) = Except.ok ⟨2024, 2, 29⟩ ∧
      parseBirthday "31.02.2024" = Except.error PyErr.valueError :=
  birthday_roundtrip ⟨2024, 2, 29⟩ (by decide) (by decide)

theorem data_append (a b : String) : (a ++ b).data = a.data ++ b.data := rfl

theorem str_append_assoc (a b c : String) :
    (a ++ b) ++ c = a ++ (b ++ c) := by
  apply congrArg String.mk
  exact List.append_assoc a.data b.data c.data

theorem containsSub_middle (x y z : List Char) :
    containsSub (x ++ (y ++ z)) y = true := by
  simp only [containsSub, List.any_eq_true]
  refine ⟨x.length, ?_, ?_⟩
  · rw [List.mem_range]
    simp only [List.length_append]
    omega
  · rw [List.drop_left, List.take_left]
    simp

theorem strContains_split (s x y z : String) (h : s = x ++ (y ++ z)) :
    strContains s y = true := by
  rw [h]
  show containsSub (x ++ (y ++ z)).data y.data = true
  rw [data_append, data_append]
  exact containsSub_middle x.data y.data z.data

/-- Counterexample to C7 as stated: the rendered record shows the birthday
in ISO `YYYY-MM-DD` form (the stored `date` object stringifies that way),
not in `DD.MM.YYYY` form — the `DD.MM.YYYY` rendering of the birthday does
not occur in the output at all. -/
theorem render_format_counterexample :
    Record.render aliceRecord =
      "Record(name=Alice, phones=1234567890, birthday=2000-01-01)"
    ∧ renderDMY ⟨2000, 1, 1⟩ = "01.01.2000"
    ∧ strContains (Record.render aliceRecord) (renderDMY ⟨2000, 1, 1⟩) =
        false := by
  refine ⟨by decide, by decide, by decide⟩

/-- Claim C7 as amended: `render` is a deterministic function of the
record containing the name, the comma-joined phone values, and the
birthday in ISO `YYYY-MM-DD` form when present or the fixed placeholder
`N/A` when absent. -/
theorem render_spec (r : Record) :
    strContains (Record.render r) r.name = true
    ∧ strContains (Record.render r) (String.intercalate ", " r.phones) = true
    ∧ (∀ b, r.birthday = some b →
        strContains (Record.render r) (isoDate b) = true)
    ∧ (r.birthday = none → strContains (Record.render r) "N/A" = true) := by
  refine ⟨?_, ?_, ?_, ?_⟩
  · exact strContains_split _ "Record(name=" r.name
      (", phones=" ++ (String.intercalate ", " r.phones ++
        (", birthday=" ++ (birthdayStr r.birthday ++ ")"))))
      (by simp only [Record.render, str_append_assoc])
  · exact strContains_split _ ("Record(name=" ++ (r.name ++ ", phones="))
      (String.intercalate ", " r.phones)
      (", birthday=" ++ (birthdayStr r.birthday ++ ")"))
      (by simp only [Record.render, str_append_assoc])
  · intro b hbb
    exact strContains_split _
      ("Record(name=" ++ (r.name ++ (", phones=" ++
        (String.intercalate ", " r.phones ++ ", birthday="))))
      (isoDate b) ")"
      (by simp only [Record.render, birthdayStr, hbb, str_append_assoc])
  · intro hbb
    exact strContains_split _
      ("Record(name=" ++ (r.name ++ (", phones=" ++
        (String.intercalate ", " r.phones ++ ", birthday="))))
      "N/A" ")"
      (by simp only [Record.render, birthdayStr, hbb, str_append_assoc])

/-- Witness for the amended C7 on the concrete Alice record. -/
theorem render_spec_witness :
    strContains (Record.render aliceRecord) (isoDate ⟨2000, 1, 1⟩) = true :=
  (render_spec aliceRecord).2.2.1 ⟨2000, 1, 1⟩ rfl
